import Mathlib

/-!
Verification of the document reconstruction engine of the doxx repository.

The Rust sources under src/ are shallowly embedded: Rust strings are modeled
as lists of characters (`Str`), byte offsets as character offsets, HashMaps as
functions to `Option`, fixed-size arrays as functions out of `Nat`, and `u32`
counters as `Nat` (Rust declares integer overflow a program error, so the
unbounded model matches the intended semantics).  Unicode-sensitive character
classes (`char::is_whitespace`, `\s`, `\d`, `char::is_uppercase`, lowercasing)
are modeled at ASCII fidelity, which the verified properties do not exceed.
-/

namespace Doxx

/-- Rust `&str` / `String`, modeled as a list of characters. -/
abbrev Str := List Char

/-- Rust `char::is_whitespace` / regex `\s` (ASCII fragment). -/
def wsChar (c : Char) : Bool :=
  c = ' ' || c = '\t' || c = '\n' || c = '\r' || c = '\x0b' || c = '\x0c'

/-- Rust `str::trim_start`. -/
def trimLeft (s : Str) : Str := s.dropWhile wsChar

/-- Rust `str::trim_end`. -/
def trimRight (s : Str) : Str := (s.reverse.dropWhile wsChar).reverse

/-- Rust `str::trim`. -/
def trim (s : Str) : Str := trimRight (trimLeft s)

/-- Rust `str::starts_with` on string patterns. -/
def strStarts : Str → Str → Bool
  | _, [] => true
  | [], _ :: _ => false
  | c :: cs, d :: ds => c = d && strStarts cs ds

/-- Rust `str::find` on a string needle: index of the leftmost occurrence. -/
def findSub : Str → Str → Option Nat
  | [], needle => if needle = [] then some 0 else none
  | c :: cs, needle =>
    if strStarts (c :: cs) needle then some 0
    else (findSub cs needle).map (· + 1)

/-- Rust `str::contains` on a string needle. -/
def containsSub (s pat : Str) : Bool := (findSub s pat).isSome

/-- Rust `str::find` on a char needle. -/
def findCharIdx (s : Str) (c : Char) : Option Nat := findSub s [c]

/-- Helper for `splitWs`: accumulates the current word (in order). -/
def splitWsGo : Str → Str → List Str
  | [], acc => if acc = [] then [] else [acc.reverse]
  | c :: cs, acc =>
    if wsChar c then
      if acc = [] then splitWsGo cs [] else acc.reverse :: splitWsGo cs []
    else splitWsGo cs (c :: acc)

/-- Rust `str::split_whitespace`. -/
def splitWs (s : Str) : List Str := splitWsGo s []

/-- Rust `char::to_digit(10)`. -/
def digitVal (c : Char) : Option Nat :=
  if c.isDigit then some (c.toNat - 48) else none

/-- Non-overlapping occurrence count, Rust `str::matches(pat).count()`;
fuel-driven so that it reduces in the kernel (fuel = haystack length suffices,
each step consumes at least one character). -/
def countOccsGo (pat : Str) : Nat → Str → Nat
  | _, [] => 0
  | 0, _ => 0
  | fuel + 1, c :: cs =>
    if strStarts (c :: cs) pat ∧ pat ≠ [] then
      1 + countOccsGo pat fuel ((c :: cs).drop pat.length)
    else countOccsGo pat fuel cs

/-- Rust `str::matches(pat).count()` (non-overlapping). -/
def countOccs (s pat : Str) : Nat := countOccsGo pat s.length s

/-! ## src/document/parsing/numbering.rs : list numbering manager -/

/-- `type NumberingCounters = HashMap<(i32, u8), u32>`, modeled by its
lookup function. -/
def NumberingCounters := Int × Nat → Option Nat

/-- `struct DocumentNumberingManager { counters: NumberingCounters }` -/
structure DocumentNumberingManager where
  counters : NumberingCounters

/-- `enum NumberingFormat` -/
inductive NumberingFormat where
  | Decimal
  | LowerLetter
  | UpperLetter
  | LowerRoman
  | UpperRoman
  | ParenLowerLetter
  | ParenLowerRoman
  | Bullet
deriving DecidableEq

/-- One step of `DocumentNumberingManager::to_roman`: the inner `while`
subtracts `value` while `n >= value`, which appends the symbol `n / value`
times and leaves `n % value`. -/
def romanStep (acc : String × Nat) (p : Nat × String) : String × Nat :=
  (acc.1 ++ String.join (List.replicate (acc.2 / p.1) p.2), acc.2 % p.1)

/-- `DocumentNumberingManager::to_roman`. -/
def to_roman (num : Nat) : String :=
  (([(1000, "M"), (900, "CM"), (500, "D"), (400, "CD"), (100, "C"),
     (90, "XC"), (50, "L"), (40, "XL"), (10, "X"), (9, "IX"), (5, "V"),
     (4, "IV"), (1, "I")] : List (Nat × String)).foldl romanStep ("", num)).1

/-- `DocumentNumberingManager::format_number`. -/
def format_number (counter : Nat) (format : NumberingFormat) : String :=
  match format with
  | .Decimal => toString counter ++ ". "
  | .LowerLetter =>
    if counter ≤ 26 then (Char.ofNat (97 + counter - 1)).toString ++ ". "
    else toString counter ++ ". "
  | .LowerRoman => (to_roman counter).toLower ++ ". "
  | .UpperLetter =>
    if counter ≤ 26 then (Char.ofNat (65 + counter - 1)).toString ++ ". "
    else toString counter ++ ". "
  | .UpperRoman => to_roman counter ++ ". "
  | .ParenLowerLetter =>
    if counter ≤ 26 then "(" ++ (Char.ofNat (97 + counter - 1)).toString ++ ")"
    else "(" ++ toString counter ++ ")"
  | .ParenLowerRoman => "(" ++ (to_roman counter).toLower ++ ")"
  | .Bullet => "* "

/-- `DocumentNumberingManager::format_hierarchical_number` (reads the counters
as they stand after the reset of deeper levels). -/
def format_hierarchical_number (m : DocumentNumberingManager) (num_id : Int)
    (level : Nat) (counter : Nat) (format : NumberingFormat) : String :=
  if num_id = 4 ∧ level = 1 then
    let parts : List String :=
      (match m.counters (num_id, 0) with
       | some parent_counter => [toString parent_counter]
       | none => []) ++ [toString counter]
    String.intercalate "." parts ++ ". "
  else
    format_number counter format

/-- `DocumentNumberingManager::generate_number`: bump the counter of
`(num_id, level)`, remove every counter of the same id at a strictly deeper
level, then render.  Returns the rendered number and the updated manager. -/
def generate_number (m : DocumentNumberingManager) (num_id : Int) (level : Nat)
    (format : NumberingFormat) : String × DocumentNumberingManager :=
  let counter_value := (m.counters (num_id, level)).getD 0 + 1
  let inserted : NumberingCounters := fun k =>
    if k = (num_id, level) then some counter_value else m.counters k
  let reset : NumberingCounters := fun k =>
    if k.1 = num_id ∧ level < k.2 then none else inserted k
  let m2 : DocumentNumberingManager := ⟨reset⟩
  (format_hierarchical_number m2 num_id level counter_value format, m2)

/-! ## src/document/parsing/numbering.rs : heading auto-number tracker -/

/-- `struct HeadingNumberTracker { counters: [u32; 6], auto_numbering_enabled }`;
the array is modeled by a function (only indices `0..5` are ever touched). -/
structure HeadingNumberTracker where
  counters : Nat → Nat
  auto_numbering_enabled : Bool

/-- `HeadingNumberTracker::new`. -/
def HeadingNumberTracker.new : HeadingNumberTracker :=
  ⟨fun _ => 0, false⟩

/-- `(level.saturating_sub(1) as usize).min(5)`; `Nat` subtraction is
saturating. -/
def heading_level_index (level : Nat) : Nat := min (level - 1) 5

/-- `HeadingNumberTracker::get_number`: bump the clamped slot, zero deeper
slots, join the nonzero counters of slots `0..=index` with dots. -/
def get_number (t : HeadingNumberTracker) (level : Nat) :
    String × HeadingNumberTracker :=
  if t.auto_numbering_enabled = false then ("", t)
  else
    let idx := heading_level_index level
    let cs : Nat → Nat := fun i =>
      if i = idx then t.counters idx + 1
      else if idx < i ∧ i < 6 then 0
      else t.counters i
    let parts : List String := (List.range (idx + 1)).filterMap fun i =>
      if cs i > 0 then some (toString (cs i)) else none
    (String.intercalate "." parts, ⟨cs, t.auto_numbering_enabled⟩)

/-! ## src/document/parsing/numbering.rs : literal heading-number extraction

The four anchored patterns of `HEADING_NUMBER_PATTERNS` are embedded as
deterministic parsers.  In each pattern the adjacent quantified classes
(digits, dots, whitespace, keyword letters) are pairwise disjoint, so the
greedy leftmost-first backtracking of the regex engine degenerates to maximal
munch everywhere except in the trailing `\s+(.+)$`, where the whitespace run
is shortened until the remainder is acceptable (`.` does not match a newline,
`$` is end of haystack). -/

/-- Match `\s+(.+)$` against `t`, returning capture group 2: try the maximal
whitespace run first, shortening it until the remainder is nonempty and
newline-free. -/
def tailMatchGo : Nat → Str → Option Str
  | 0, _ => none
  | k + 1, t =>
    let rest := t.drop (k + 1)
    if rest ≠ [] ∧ ¬ rest.contains '\n' then some rest
    else tailMatchGo k t

/-- Capture group 2 of `\s+(.+)$`, or `none` when the tail does not match. -/
def tailMatch (t : Str) : Option Str :=
  tailMatchGo (t.takeWhile wsChar).length t

/-- Maximal munch of `(?:\.\d+)+` (or `*`): consume groups of a dot followed
by at least one digit; returns (consumed, rest).  Fuel-driven (fuel = length
of the input suffices). -/
def munchDotDigits : Nat → Str → Str × Str
  | 0, s => ([], s)
  | fuel + 1, s =>
    match s with
    | '.' :: c :: cs =>
      if c.isDigit then
        let ds := (c :: cs).takeWhile Char.isDigit
        let r := (c :: cs).dropWhile Char.isDigit
        let (more, rest) := munchDotDigits fuel r
        ('.' :: (ds ++ more), rest)
      else ([], s)
    | _ => ([], s)

/-- Regex `^(\d+(?:\.\d+)+\.?|\d+\.)\s+(.+)$` ("1.", "1.1", "2.1.1"). -/
def patDecimal (s : Str) : Option (Str × Str) :=
  let d0 := s.takeWhile Char.isDigit
  let r0 := s.dropWhile Char.isDigit
  if d0 = [] then none
  else
    let (groups, r1) := munchDotDigits r0.length r0
    if groups ≠ [] then
      match r1 with
      | '.' :: r2 => (tailMatch r2).map fun g2 => (d0 ++ groups ++ ['.'], g2)
      | _ => (tailMatch r1).map fun g2 => (d0 ++ groups, g2)
    else
      match r0 with
      | '.' :: r2 => (tailMatch r2).map fun g2 => (d0 ++ ['.'], g2)
      | _ => none

/-- The literal alternation `(?:Section|Chapter|Part)`, leftmost-first. -/
def sectionKeyword (s : Str) : Option Str :=
  if strStarts s ("Section".toList) then some ("Section".toList)
  else if strStarts s ("Chapter".toList) then some ("Chapter".toList)
  else if strStarts s ("Part".toList) then some ("Part".toList)
  else none

/-- Regex `^((?:Section|Chapter|Part)\s+\d+(?:\.\d+)*\.?)\s+(.+)$`. -/
def patSection (s : Str) : Option (Str × Str) :=
  match sectionKeyword s with
  | none => none
  | some kw =>
    let r0 := s.drop kw.length
    let ws := r0.takeWhile wsChar
    let r1 := r0.dropWhile wsChar
    if ws = [] then none
    else
      let d0 := r1.takeWhile Char.isDigit
      let r2 := r1.dropWhile Char.isDigit
      if d0 = [] then none
      else
        let (groups, r3) := munchDotDigits r2.length r2
        match r3 with
        | '.' :: r4 => (tailMatch r4).map fun g2 => (kw ++ ws ++ d0 ++ groups ++ ['.'], g2)
        | _ => (tailMatch r3).map fun g2 => (kw ++ ws ++ d0 ++ groups, g2)

/-- Regex `^([A-Z]\.)\s+(.+)$` ("A. Introduction"). -/
def patUpperLetter : Str → Option (Str × Str)
  | c :: '.' :: rest =>
    if 'A' ≤ c ∧ c ≤ 'Z' then (tailMatch rest).map fun g2 => ([c, '.'], g2)
    else none
  | _ => none

/-- Regex class `[IVX]`. -/
def romanChar (c : Char) : Bool := c = 'I' || c = 'V' || c = 'X'

/-- Regex `^([IVX]+\.)\s+(.+)$` ("I. Overview"). -/
def patRoman (s : Str) : Option (Str × Str) :=
  let run := s.takeWhile romanChar
  let r0 := s.dropWhile romanChar
  if run = [] then none
  else
    match r0 with
    | '.' :: rest => (tailMatch rest).map fun g2 => (run ++ ['.'], g2)
    | _ => none

/-- Rust `str::trim_end_matches('.')`: drop every trailing dot. -/
def trimEndDots (s : Str) : Str := (s.reverse.dropWhile (· == '.')).reverse

/-- The per-pattern acceptance step of `extract_heading_number_from_text`:
trim trailing dots from group 1, trim group 2, and keep the match only when
both are nonempty (otherwise the loop falls through to the next pattern). -/
def acceptMatch : Option (Str × Str) → Option (Str × Str)
  | some (number, rest) =>
    let number2 := trimEndDots number
    let remaining := trim rest
    if number2 ≠ [] ∧ remaining ≠ [] then some (number2, remaining) else none
  | none => none

/-- `extract_heading_number_from_text`: trim, then try the four patterns in
order. -/
def extract_heading_number_from_text (text0 : Str) : Option (Str × Str) :=
  let text := trim text0
  if text = [] then none
  else
    acceptMatch (patDecimal text) <|> acceptMatch (patSection text) <|>
      acceptMatch (patUpperLetter text) <|> acceptMatch (patRoman text)

/-! ## src/document/parsing/heading.rs : style lookup
     and src/document/parsing/numbering.rs : document-wide pre-pass -/

/-- A docx paragraph, abstracted to the two features these functions read:
the named style (`para.property.style.val`) and the extracted plain text. -/
structure DocxParagraph where
  style : Option Str
  text : Str

/-- `detect_heading_from_paragraph_style`: style names starting with
"Heading"/"heading" are headings; the level is the last character read as a
decimal digit, capped at 6, defaulting to 1 when the last character is not a
digit. -/
def detect_heading_from_paragraph_style (style : Option Str) : Option Nat :=
  match style with
  | none => none
  | some sv =>
    if strStarts sv ("Heading".toList) || strStarts sv ("heading".toList) then
      match sv.getLast? with
      | some level_char =>
        match digitVal level_char with
        | some level => some (min level 6)
        | none => some 1
      | none => some 1
    else none

/-- Loop state of `analyze_heading_structure`: heading count, explicit-number
flag, and the `[u32; 6]` histogram of levels (modeled by a function). -/
structure AnalyzeState where
  heading_count : Nat
  has_explicit_numbering : Bool
  level_counts : Nat → Nat

/-- One iteration of the `analyze_heading_structure` loop. -/
def analyzeStep (st : AnalyzeState) (p : DocxParagraph) : AnalyzeState :=
  match detect_heading_from_paragraph_style p.style with
  | some heading_level =>
    { heading_count := st.heading_count + 1
      has_explicit_numbering := st.has_explicit_numbering ||
        (extract_heading_number_from_text p.text).isSome
      level_counts := fun i =>
        if i = heading_level_index heading_level then st.level_counts i + 1
        else st.level_counts i }
  | none => st

/-- `analyze_heading_structure`: decide whether automatic heading numbering
is enabled for the whole load. -/
def analyze_heading_structure (paras : List DocxParagraph) : Bool :=
  let st := paras.foldl analyzeStep ⟨0, false, fun _ => 0⟩
  if st.has_explicit_numbering || decide (st.heading_count < 3) then false
  else
    let levels_with_headings :=
      ((List.range 6).filter fun i => decide (0 < st.level_counts i)).length
    decide (1 < levels_with_headings) || decide (1 < st.level_counts 0)

/-- The styled headings of a document, as (level, text) pairs — the
paragraphs the `analyze_heading_structure` loop acts on. -/
def styled_headings (paras : List DocxParagraph) : List (Nat × Str) :=
  paras.filterMap fun p =>
    (detect_heading_from_paragraph_style p.style).map fun l => (l, p.text)

/-- Number of styled headings seen by the pre-pass. -/
def headingCountOf (paras : List DocxParagraph) : Nat :=
  (styled_headings paras).length

/-- Whether any styled heading carries literal numbering in its text. -/
def hasExplicitOf (paras : List DocxParagraph) : Bool :=
  (styled_headings paras).any fun h =>
    (extract_heading_number_from_text h.2).isSome

/-- Number of styled headings whose clamped level index is `i`. -/
def levelCountOf (paras : List DocxParagraph) (i : Nat) : Nat :=
  (styled_headings paras).countP fun h => decide (heading_level_index h.1 = i)

/-- Number of distinct level slots (of the six) that hold some heading. -/
def levelsUsedOf (paras : List DocxParagraph) : Nat :=
  ((List.range 6).filter fun i => decide (0 < levelCountOf paras i)).length

/-! ## src/document/models.rs : core data structures -/

/-- `TextAlignment` -/
inductive TextAlignment where
  | Left
  | Center
  | Right
  | Justify
deriving DecidableEq

/-- `CellDataType` -/
inductive CellDataType where
  | Text
  | Number
  | Currency
  | Percentage
  | Date
  | Boolean
  | Empty
deriving DecidableEq

/-- `TextFormatting` (the `f32` font size is modeled as a rational; its exact
carrier is irrelevant to the verified properties, which only compare
formattings for equality). -/
structure TextFormatting where
  bold : Bool
  italic : Bool
  underline : Bool
  strikethrough : Bool
  font_size : Option ℚ
  color : Option Str
deriving DecidableEq

/-- `TextFormatting::default()`. -/
def TextFormatting.default : TextFormatting :=
  ⟨false, false, false, false, none, none⟩

/-- `FormattedRun` -/
structure FormattedRun where
  text : Str
  formatting : TextFormatting
deriving DecidableEq

/-- `ListItem` -/
structure ListItem where
  runs : List FormattedRun
  level : Nat
deriving DecidableEq

/-- `TableCell` -/
structure TableCell where
  content : Str
  alignment : TextAlignment
  formatting : TextFormatting
  data_type : CellDataType
deriving DecidableEq

/-- `TableMetadata` -/
structure TableMetadata where
  column_count : Nat
  row_count : Nat
  has_headers : Bool
  column_widths : List Nat
  column_alignments : List TextAlignment
  title : Option Str
deriving DecidableEq

/-- `TableData` -/
structure TableData where
  headers : List TableCell
  rows : List (List TableCell)
  metadata : TableMetadata
deriving DecidableEq

/-- `DocumentElement` (the image path/relationship fields are irrelevant to
the verified properties and carried as plain data). -/
inductive DocumentElement where
  | Heading (level : Nat) (text : Str) (number : Option Str)
  | Paragraph (runs : List FormattedRun)
  | ListElem (items : List ListItem) (ordered : Bool)
  | Table (table : TableData)
  | Image (description : Str) (width : Option Nat) (height : Option Nat)
  | Equation (latex : Str) (fallback : Str)
  | PageBreak
deriving DecidableEq

/-- `DocumentMetadata` -/
structure DocumentMetadata where
  file_path : Str
  file_size : Nat
  word_count : Nat
  page_count : Nat
  created : Option Str
  modified : Option Str
  author : Option Str
deriving DecidableEq

/-- `Document` (transient `image_options` omitted: no verified property reads
it). -/
structure Document where
  title : Str
  metadata : DocumentMetadata
  elements : List DocumentElement
deriving DecidableEq

/-- `SearchResult` -/
structure SearchResult where
  element_index : Nat
  text : Str
  start_pos : Nat
  end_pos : Nat
deriving DecidableEq

/-! ## src/document/models.rs : FormattedRun::consolidate_runs -/

/-- The loop of `consolidate_runs`: `cur` is `current_run`, merged into or
flushed as the tail is traversed. -/
def consolidateGo (cur : FormattedRun) : List FormattedRun → List FormattedRun
  | [] => [cur]
  | r :: rs =>
    if cur.formatting = r.formatting then
      consolidateGo ⟨cur.text ++ r.text, cur.formatting⟩ rs
    else
      cur :: consolidateGo r rs

/-- `FormattedRun::consolidate_runs`: merge adjacent runs with identical
formatting. -/
def consolidate_runs : List FormattedRun → List FormattedRun
  | [] => []
  | r :: rs => consolidateGo r rs

/-- Concatenation of the run texts (`runs.iter().map(|run| run.text).collect()`). -/
def textConcat (runs : List FormattedRun) : Str :=
  (runs.map FormattedRun.text).flatten

/-! ## src/document/query.rs : search_document -/

/-- Rust `str::to_lowercase`, at ASCII fidelity. -/
def toLowerStr (s : Str) : Str := s.map Char.toLower

/-- One match site of `search_document`: lowercase the element text, find the
query, and push a result whose end is `start_pos + query.len()`. -/
def searchHit (element_index : Nat) (text : Str) (query_lower : Str)
    (query_len : Nat) : List SearchResult :=
  match findSub (toLowerStr text) query_lower with
  | some start_pos => [⟨element_index, text, start_pos, start_pos + query_len⟩]
  | none => []

/-- The per-element body of the `search_document` loop. -/
def elementHits (query_lower : Str) (query_len : Nat) (element_index : Nat) :
    DocumentElement → List SearchResult
  | .Heading _ text _ => searchHit element_index text query_lower query_len
  | .Paragraph runs => searchHit element_index (textConcat runs) query_lower query_len
  | .ListElem items _ =>
    items.flatMap fun item =>
      searchHit element_index (textConcat item.runs) query_lower query_len
  | .Table table =>
    (table.headers.flatMap fun header =>
      searchHit element_index header.content query_lower query_len) ++
    (table.rows.flatMap fun row => row.flatMap fun cell =>
      searchHit element_index cell.content query_lower query_len)
  | .Image description _ _ => searchHit element_index description query_lower query_len
  | .Equation latex _ => searchHit element_index latex query_lower query_len
  | .PageBreak => []

/-- `search_document`: case-insensitive substring search over every element;
only the empty query short-circuits. -/
def search_document (document : Document) (query : Str) : List SearchResult :=
  if query = [] then []
  else
    document.elements.enum.flatMap fun p =>
      elementHits (toLowerStr query) query.length p.1 p.2

/-! ## IEEE-754 binary32 fragment

`determine_column_alignments` compares `numeric_count as f32 / total_count
as f32` against the literal `0.7f32`.  Nonnegative `f32` values are modeled
by their exact value, an unreduced nonnegative fraction `PosRat` (plain
`Nat` pairs, so every operation reduces in the kernel); `f32round` is
round-to-nearest, ties-to-even at 24 bits of precision (normal range only —
the counts and ratios involved never reach the subnormal or overflow
ranges).  `u32 as f32` conversion and `f32` division are correctly rounded,
hence modeled as the exact operation followed by `f32round`. -/

/-- A nonnegative fraction `num / den` (not reduced; `den` positive in every
value these definitions build). -/
structure PosRat where
  num : Nat
  den : Nat
deriving DecidableEq

/-- Exact comparison `a < b` of nonnegative fractions. -/
def prLt (a b : PosRat) : Bool := decide (a.num * b.den < b.num * a.den)

/-- Normalize a positive fraction `a / b` into the mantissa range
`[2^23, 2^24)` by fuel-bounded doubling/halving; returns `(a, b, e)` with
original value `= (a / b) * 2 ^ e` (fuel 300 covers every float
exponent). -/
def f32normalize : Nat → Nat → Nat → Int → Nat × Nat × Int
  | 0, a, b, e => (a, b, e)
  | fuel + 1, a, b, e =>
    if a < 8388608 * b then f32normalize fuel (2 * a) b (e - 1)
    else if 16777216 * b ≤ a then f32normalize fuel a (2 * b) (e + 1)
    else (a, b, e)

/-- Round a nonnegative fraction to the nearest `f32` value (ties to even),
as an exact fraction. -/
def f32round (q : PosRat) : PosRat :=
  if q.num = 0 then ⟨0, 1⟩
  else
    let p := f32normalize 300 q.num q.den 0
    let a := p.1
    let b := p.2.1
    let fl := a / b
    let rem := a % b
    let m : Nat :=
      if 2 * rem < b then fl
      else if b < 2 * rem then fl + 1
      else if fl % 2 = 0 then fl else fl + 1
    match p.2.2 with
    | .ofNat e => ⟨m * 2 ^ e, 1⟩
    | .negSucc e => ⟨m, 2 ^ (e + 1)⟩

/-- Rust `n as f32` for a `u32`/`usize` count. -/
def f32ofNat (n : Nat) : PosRat := f32round ⟨n, 1⟩

/-- Correctly rounded `f32` division of nonnegative values. -/
def f32div (a b : PosRat) : PosRat := f32round ⟨a.num * b.den, a.den * b.num⟩

/-- The `f32` literal `0.7`. -/
def f32lit0_7 : PosRat := f32round ⟨7, 10⟩

/-! ## src/document/parsing/table.rs -/

/-- `matches!(data_type, Number | Currency | Percentage)`. -/
def isNumericCellType : CellDataType → Bool
  | .Number => true
  | .Currency => true
  | .Percentage => true
  | _ => false

/-- One row step of the per-column counting loop of
`determine_column_alignments`: `acc = (numeric_count, total_count)`. -/
def columnCountsStep (col : Nat) (acc : Nat × Nat) (row : List TableCell) :
    Nat × Nat :=
  match row[col]? with
  | some cell =>
    (if isNumericCellType cell.data_type then acc.1 + 1 else acc.1, acc.2 + 1)
  | none => acc

/-- `determine_column_alignments`: a column is right-aligned when it has
cells and the `f32` ratio of numeric cells strictly exceeds `0.7f32`. -/
def determine_column_alignments (headers : List TableCell)
    (rows : List (List TableCell)) : List TextAlignment :=
  (List.range headers.length).map fun col =>
    let counts := rows.foldl (columnCountsStep col) (0, 0)
    if 0 < counts.2 ∧ prLt f32lit0_7 (f32div (f32ofNat counts.1) (f32ofNat counts.2)) = true
    then .Right else .Left

/-- Number of rows that have a cell in column `col` (the loop's
`total_count`). -/
def colTotal (rows : List (List TableCell)) (col : Nat) : Nat :=
  rows.countP fun row => (row[col]?).isSome

/-- Number of rows whose cell in column `col` has numeric data type (the
loop's `numeric_count`). -/
def colNumeric (rows : List (List TableCell)) (col : Nat) : Nat :=
  rows.countP fun row =>
    match row[col]? with
    | some cell => isNumericCellType cell.data_type
    | none => false

/-- `TableCell::display_width` (grapheme-cluster count, modeled as character
count). -/
def display_width (c : TableCell) : Nat := c.content.length

/-- `calculate_column_widths`: per-column max of header/cell display widths,
floored at 3. -/
def calculate_column_widths (headers : List TableCell)
    (rows : List (List TableCell)) : List Nat :=
  if headers = [] then []
  else
    let base := headers.map display_width
    let widths := rows.foldl
      (fun ws row => ws.mapIdx fun i w =>
        match row[i]? with
        | some cell => max w (display_width cell)
        | none => w)
      base
    widths.map fun w => max w 3

/-- `TableData::new`. -/
def TableData.new (headers : List TableCell) (rows : List (List TableCell)) :
    TableData :=
  { headers := headers
    rows := rows
    metadata :=
      { column_count := headers.length
        row_count := rows.length
        has_headers := decide (headers ≠ [])
        column_widths := calculate_column_widths headers rows
        column_alignments := determine_column_alignments headers rows
        title := none } }

/-! ## src/document/parsing/list.rs and src/document/cleanup.rs -/

/-- `s.getLast? = some c`, Rust `str::ends_with(char)`. -/
def lastIs (s : Str) (c : Char) : Bool := decide (s.getLast? = some c)

/-- `is_likely_sentence` (src/document/cleanup.rs). -/
def is_likely_sentence (text0 : Str) : Bool :=
  let text := trim text0
  if 1 < countOccs text (". ".toList) then true
  else if 80 < text.length ∧ (lastIs text '.' || lastIs text '!' || lastIs text '?') then
    true
  else if containsSub text (" and ".toList) || containsSub text (" but ".toList) ||
      containsSub text (" however ".toList) || containsSub text (" therefore ".toList) then
    true
  else false

/-- `is_likely_list_item` (byte lengths and byte indices modeled as character
lengths and indices). -/
def is_likely_list_item (text0 : Str) : Bool :=
  let text := trim text0
  if strStarts text ("__WORD_LIST__".toList) then false
  else
    let numericCase : Bool :=
      match text with
      | c :: _ =>
        c.isDigit &&
          (match findCharIdx text '.' with
           | some dotPos => decide (20 < (trim (text.drop (dotPos + 1))).length)
           | none => false)
      | [] => false
    numericCase ||
      strStarts text ("• ".toList) || strStarts text ("- ".toList) ||
      strStarts text ("* ".toList) ||
      (decide (3 < text.length) && decide (text[1]? = some '.') &&
        (match text.head? with
         | some c => c.isLower || c.isUpper
         | none => false))

/-- `calculate_list_level`: leading-whitespace count divided by 2, cast
`as u8` (wraps mod 256). -/
def calculate_list_level (text : Str) : Nat :=
  ((text.length - (trimLeft text).length) / 2) % 256

/-- The `prefix_to_remove` computation of `clean_list_item_runs`. -/
def cleanTarget (text : Str) : Str :=
  if strStarts text ("• ".toList) then "• ".toList
  else if strStarts text ("- ".toList) then "- ".toList
  else if strStarts text ("* ".toList) then "* ".toList
  else
    match findCharIdx text '.' with
    | some dotPos =>
      let pre := text.take dotPos
      if pre.all Char.isDigit then
        text.take (dotPos + (if text[dotPos + 1]? = some ' ' then 2 else 1))
      else if decide (2 < text.length) && decide (text[1]? = some '.') then
        match text.head? with
        | some c =>
          if c.isLower || c.isUpper then
            text.take (if text[2]? = some ' ' then 3 else 2)
          else []
        | none => []
      else []
    | none => []

/-- The prefix-stripping loop of `clean_list_item_runs`: remove `k`
characters from the run sequence, trimming the first surviving run and
preserving formatting boundaries. -/
def removePrefixRuns : Nat → List FormattedRun → List FormattedRun
  | _, [] => []
  | 0, r :: rs => r :: removePrefixRuns 0 rs
  | k + 1, r :: rs =>
    if r.text.length ≤ k + 1 then removePrefixRuns (k + 1 - r.text.length) rs
    else
      let keep := r.text.drop (k + 1)
      (if keep = [] then [] else [⟨trimLeft keep, r.formatting⟩]) ++
        removePrefixRuns 0 rs

/-- `clean_list_item_runs`. -/
def clean_list_item_runs (runs : List FormattedRun) : List FormattedRun :=
  if runs = [] then runs
  else
    let text := trim (textConcat runs)
    let target := cleanTarget text
    if target = [] then runs else removePrefixRuns target.length runs

/-- The loop of `group_list_items`: `cur`/`ord` are `current_list_items` and
`current_list_ordered`. -/
def groupGo : List DocumentElement → List ListItem → Bool → List DocumentElement
  | [], cur, ord => if cur = [] then [] else [.ListElem cur ord]
  | e :: es, cur, ord =>
    match e with
    | .Paragraph runs =>
      let text := textConcat runs
      if is_likely_list_item text then
        let isOrd : Bool :=
          match trim text with
          | c :: _ => c.isDigit
          | [] => false
        let item : ListItem := ⟨clean_list_item_runs runs, calculate_list_level text⟩
        if cur ≠ [] ∧ isOrd ≠ ord then
          .ListElem cur ord :: groupGo es [item] isOrd
        else
          groupGo es (cur ++ [item]) isOrd
      else
        if cur ≠ [] then .ListElem cur ord :: e :: groupGo es [] ord
        else e :: groupGo es [] ord
    | _ =>
      if cur ≠ [] then .ListElem cur ord :: e :: groupGo es [] ord
      else e :: groupGo es [] ord

/-- `group_list_items`. -/
def group_list_items (elements : List DocumentElement) : List DocumentElement :=
  groupGo elements [] false

/-! ## src/document/io.rs : merge_display_equations -/

/-- `eq_para_indices.sort_unstable()`: sort ascending. -/
def sortNat (l : List Nat) : List Nat := List.insertionSort (· ≤ ·) l

/-- The elements that bump `element_para_index` in
`merge_display_equations`. -/
def isParaLike : DocumentElement → Bool
  | .Paragraph _ => true
  | .Heading _ _ _ => true
  | .ListElem _ _ => true
  | _ => false

/-- The inner `while` of `merge_display_equations`: pop sorted indices
strictly below `bound`, emitting their equations; returns (emitted,
remaining indices). -/
def consumeEqs (eqmap : Nat → List DocumentElement) :
    List Nat → Nat → List DocumentElement × List Nat
  | [], _ => ([], [])
  | k :: ks, bound =>
    if k < bound then
      let p := consumeEqs eqmap ks bound
      (eqmap k ++ p.1, p.2)
    else ([], k :: ks)

/-- The element loop of `merge_display_equations` (`idx` is
`element_para_index`). -/
def mergeGo (eqmap : Nat → List DocumentElement) :
    List DocumentElement → List Nat → Nat → List DocumentElement
  | [], ks, _ => ks.flatMap eqmap
  | e :: es, ks, idx =>
    if isParaLike e then
      let p := consumeEqs eqmap ks (idx + 1)
      p.1 ++ e :: mergeGo eqmap es p.2 (idx + 1)
    else
      e :: mergeGo eqmap es ks idx

/-- `merge_display_equations`; the `HashMap<usize, Vec<DocumentElement>>` is
modeled by its key list (arbitrary order, the code sorts it) and its lookup
function. -/
def merge_display_equations (elements : List DocumentElement)
    (eqKeys : List Nat) (eqmap : Nat → List DocumentElement) :
    List DocumentElement :=
  if eqKeys = [] then elements
  else mergeGo eqmap elements (sortNat eqKeys) 0

/-- Positional walker of the specification-side merge model: `p` counts the
paragraph-like elements already passed, so the boundary in front of an
element that would be the `(p+1)`-th paragraph-like one is the boundary
between paragraph indices `p` and `p + 1`.  At that boundary the equations
whose paragraph index equals `p` are emitted (from the ascending-sorted key
list, so blocks appear in ascending index order); at the end of the stream
every equation with an index at or beyond the final boundary follows, still
in ascending order. -/
def specMergeGo (m : Nat → List DocumentElement) (ks : List Nat) :
    List DocumentElement → Nat → List DocumentElement
  | [], p => (ks.filter fun k => decide (p ≤ k)).flatMap m
  | e :: es, p =>
    if isParaLike e then
      (ks.filter fun k => decide (k = p)).flatMap m ++
        e :: specMergeGo m ks es (p + 1)
    else e :: specMergeGo m ks es p

/-- Specification-side model of the display-equation merge, written from the
spec's words rather than from io.rs: every display equation keyed with
paragraph index `k` is inserted at the nearest correct paragraph-index
boundary — immediately before the `(k+1)`-th paragraph-like element, where
the paragraph it came from would have stood — and the inserted blocks occur
in ascending paragraph-index order, equations past the last boundary ending
the list. -/
def merge_display_equations_model (elements : List DocumentElement)
    (eqKeys : List Nat) (eqmap : Nat → List DocumentElement) :
    List DocumentElement :=
  if eqKeys = [] then elements
  else specMergeGo eqmap (sortNat eqKeys) elements 0

/-- One output element of `group_list_items`, flattened: a produced (or
pre-existing) grouped list is expanded back into its items, every other
element stands for itself. -/
def expandElem : DocumentElement → List (ListItem ⊕ DocumentElement)
  | .ListElem items _ => items.map Sum.inl
  | e => [Sum.inr e]

/-- Flattening of an element stream: grouped lists are replaced by their
items in order, all other elements kept in place. -/
def expandLists (es : List DocumentElement) :
    List (ListItem ⊕ DocumentElement) :=
  es.flatMap expandElem

/-- The flattened image the grouping pass owes each input element: a
paragraph classified as a list item becomes exactly its cleaned item (runs
stripped of the bullet/number prefix, level from indentation), any other
element stays itself (a pre-existing list stands for its items). -/
def groupImage : DocumentElement → List (ListItem ⊕ DocumentElement)
  | .Paragraph runs =>
    if is_likely_list_item (textConcat runs) then
      [Sum.inl ⟨clean_list_item_runs runs,
        calculate_list_level (textConcat runs)⟩]
    else [Sum.inr (.Paragraph runs)]
  | .ListElem items _ => items.map Sum.inl
  | e => [Sum.inr e]

/-! ## src/document/parsing/heading.rs : text-shape fallback heuristic -/

/-- `determine_heading_level_from_text`. -/
def determine_heading_level_from_text (text : Str) : Nat :=
  if text.length < 20 then 1
  else if text.length < 40 then 2
  else 3

/-- Rust `char::is_ascii_punctuation`. -/
def isAsciiPunct (c : Char) : Bool :=
  (decide (33 ≤ c.toNat) && decide (c.toNat ≤ 47)) ||
  (decide (58 ≤ c.toNat) && decide (c.toNat ≤ 64)) ||
  (decide (91 ≤ c.toNat) && decide (c.toNat ≤ 96)) ||
  (decide (123 ≤ c.toNat) && decide (c.toNat ≤ 126))

/-- `detect_heading_from_text`: the conservative text-shape heuristic.  The
Rust `return` points become the chain of conditionals below; a guard that
fails inside a taken outer `if` without `return` falls through to the next
check, which the flattened conjunctions reproduce. -/
def detect_heading_from_text (text0 : Str) (formatting : TextFormatting) :
    Option Nat :=
  let text := trim text0
  if text.length < 100 ∧ ¬ text.contains '\n' then
    if is_likely_list_item text || is_likely_sentence text then none
    else if containsSub text (" the ".toList) || containsSub text (" and ".toList) ||
        containsSub text (" with ".toList) || containsSub text (" for ".toList) then none
    else if formatting.bold && decide (text.length < 60) && decide (5 < text.length) &&
        !(lastIs text '.') && !(lastIs text ',') && !(lastIs text ';') &&
        !(lastIs text ':') then
      some (determine_heading_level_from_text text)
    else if decide (15 < text.length) && decide (text.length < 50) &&
        text.all (fun c => c.isUpper || wsChar c || c.isDigit || isAsciiPunct c) then
      some 1
    else if strStarts text ("Chapter ".toList) || strStarts text ("Section ".toList) ||
        strStarts text ("Part ".toList) then
      some (determine_heading_level_from_text text)
    else if decide (text.length < 40) && decide (10 < text.length) &&
        !(lastIs text '.') && !(text.contains ',') && !(text.contains '(') &&
        !(text.contains ':') then
      let words := (splitWs text).length
      if 2 ≤ words ∧ words ≤ 5 then
        if ((splitWs text).any fun word =>
              decide (3 < word.length) && word.all Char.isAlpha) &&
            (match text.head? with
             | some c => c.isUpper
             | none => false) then
          some (determine_heading_level_from_text text)
        else none
      else none
    else none
  else none

/-! ## src/document/loader.rs and src/document/io.rs : load error semantics

`load_document` is modeled over the outcomes of its external collaborators
(filesystem, zip archive, docx object-model parser, image extractor,
raw-XML equation passes); the element construction itself is pure and cannot
fail, so the model keeps only the data the error-semantics claims read. -/

/-- The package-level facts `validate_docx_file` inspects. -/
structure PackageInfo where
  extensionIsDocx : Bool
  openable : Bool
  hasDocumentXml : Bool
  hasXlWorkbook : Bool
deriving DecidableEq

/-- The distinct failure exits of the load pipeline. -/
inductive LoadError where
  | invalidExtension
  | excelFile
  | invalidDocx
  | ioFailure
  | docxParseFailure
  | imageExtractionFailure
deriving DecidableEq

/-- `validate_docx_file` (src/document/io.rs): extension check, zip check,
then `word/document.xml` presence with the xlsx special case. -/
def validate_docx_file (pkg : PackageInfo) : Except LoadError Unit :=
  if pkg.extensionIsDocx = false then .error .invalidExtension
  else if pkg.openable = false then .error .ioFailure
  else if pkg.hasDocumentXml then .ok ()
  else if pkg.hasXlWorkbook then .error .excelFile
  else .error .invalidDocx

/-- `EquationInfo` (src/equation.rs intermediate). -/
structure EquationInfo where
  latex : Str
  fallback : Str
  is_inline : Bool
  paragraph_index : Nat
deriving DecidableEq

/-- Collaborator outcomes a single `load_document` call observes. -/
structure LoadEnv where
  pkg : PackageInfo
  metadataOk : Bool
  readOk : Bool
  docxParses : Bool
  imageExtractionOk : Bool
  inlineScanResult : Except Unit Unit
  equationInfosResult : Except Unit (List EquationInfo)

/-- The load outcome data the error-semantics claims read. -/
structure LoadResult where
  displayEquations : List EquationInfo
deriving DecidableEq

/-- `load_document` error plumbing: every `?` is a fatal exit, the two
equation passes use `unwrap_or_default()` and degrade to empty data. -/
def load_document (env : LoadEnv) (imagesEnabled : Bool) :
    Except LoadError LoadResult :=
  match validate_docx_file env.pkg with
  | .error e => .error e
  | .ok _ =>
    if env.metadataOk = false then .error .ioFailure
    else if env.readOk = false then .error .ioFailure
    else if env.docxParses = false then .error .docxParseFailure
    else if imagesEnabled ∧ env.imageExtractionOk = false then
      .error .imageExtractionFailure
    else
      let eqInfos :=
        match env.equationInfosResult with
        | .ok l => l
        | .error _ => []
      .ok ⟨eqInfos.filter fun eq => eq.is_inline = false⟩

/-- `Result::is_ok`. -/
def exceptOk {ε α : Type} : Except ε α → Bool
  | .ok _ => true
  | .error _ => false

/-- Elements that are neither paragraphs nor lists: these pass through
`group_list_items` untouched. -/
def survivesGrouping : DocumentElement → Bool
  | .Paragraph _ => false
  | .ListElem _ _ => false
  | _ => true

/-! ## Concrete fixtures used by the closed theorems -/

/-- Empty metadata record for fixture documents. -/
def emptyMeta : DocumentMetadata := ⟨[], 0, 0, 0, none, none, none⟩

/-- A document holding the single paragraph "a b". -/
def docWs : Document :=
  ⟨"w".toList, emptyMeta, [.Paragraph [⟨"a b".toList, TextFormatting.default⟩]]⟩

/-- A document holding the single paragraph "Revenue up". -/
def docRevenue : Document :=
  ⟨"r".toList, emptyMeta, [.Paragraph [⟨"Revenue up".toList, TextFormatting.default⟩]]⟩

/-- A table cell of numeric data type. -/
def numCell : TableCell :=
  ⟨"1".toList, .Right, TextFormatting.default, .Number⟩

/-- A table cell of text data type. -/
def txtCell : TableCell :=
  ⟨"x".toList, .Left, TextFormatting.default, .Text⟩

/-- Single-column tables: `n` numeric rows followed by `t - n` text rows. -/
def sampleRows (n t : Nat) : List (List TableCell) :=
  List.replicate n [numCell] ++ List.replicate (t - n) [txtCell]

/-- One column, 9999997 rows, of which 6999998 (just above 70 percent) are
numeric. -/
def bigRows : List (List TableCell) := sampleRows 6999998 9999997

/-- Three styled headings, all at level 1, with unnumbered texts. -/
def paras3 : List DocxParagraph :=
  [⟨some ("Heading1".toList), "Alpha".toList⟩,
   ⟨some ("Heading1".toList), "Beta".toList⟩,
   ⟨some ("Heading1".toList), "Gamma".toList⟩]

/-- A perfectly healthy package: docx extension, readable zip, core part
present. -/
def goodPkg : PackageInfo := ⟨true, true, true, false⟩

/-- Environment where every package-level step succeeds but image extraction
fails. -/
def envImgFail : LoadEnv := ⟨goodPkg, true, true, true, false, .ok (), .ok []⟩

/-- Environment where everything succeeds except the equation-extraction
passes. -/
def envEqFail : LoadEnv := ⟨goodPkg, true, true, true, true, .error (), .error ()⟩

/-- Bold-only formatting. -/
def boldFmt : TextFormatting := ⟨true, false, false, false, none, none⟩

/-! # Theorems -/

/-! ## Run consolidation -/

theorem textConcat_cons (r : FormattedRun) (rs : List FormattedRun) :
    textConcat (r :: rs) = r.text ++ textConcat rs := by
  simp [textConcat]

theorem textConcat_consolidateGo (rs : List FormattedRun) (c : FormattedRun) :
    textConcat (consolidateGo c rs) = c.text ++ textConcat rs := by
  induction rs generalizing c with
  | nil => simp [consolidateGo, textConcat]
  | cons r rs ih =>
    by_cases h : c.formatting = r.formatting
    · rw [consolidateGo, if_pos h, ih, textConcat_cons, ← List.append_assoc]
    · rw [consolidateGo, if_neg h, textConcat_cons, ih, textConcat_cons]

theorem consolidateGo_shape (rs : List FormattedRun) (c : FormattedRun) :
    ∃ t tl, consolidateGo c rs = ⟨t, c.formatting⟩ :: tl := by
  induction rs generalizing c with
  | nil => exact ⟨c.text, [], rfl⟩
  | cons r rs ih =>
    by_cases h : c.formatting = r.formatting
    · obtain ⟨t, tl, ht⟩ := ih ⟨c.text ++ r.text, c.formatting⟩
      exact ⟨t, tl, by simp [consolidateGo, if_pos h, ht]⟩
    · exact ⟨c.text, consolidateGo r rs, by simp [consolidateGo, if_neg h]⟩

theorem consolidateGo_chain (rs : List FormattedRun) (c : FormattedRun) :
    List.Chain' (fun a b => a.formatting ≠ b.formatting) (consolidateGo c rs) := by
  induction rs generalizing c with
  | nil => simp [consolidateGo]
  | cons r rs ih =>
    by_cases h : c.formatting = r.formatting
    · simpa [consolidateGo, if_pos h] using ih ⟨c.text ++ r.text, c.formatting⟩
    · obtain ⟨t, tl, ht⟩ := consolidateGo_shape rs r
      simp only [consolidateGo, if_neg h, ht]
      refine List.Chain'.cons ?_ ?_
      · simpa using h
      · rw [← ht]; exact ih r

theorem consolidateGo_of_chain (rs : List FormattedRun) (c : FormattedRun)
    (h : List.Chain' (fun a b => a.formatting ≠ b.formatting) (c :: rs)) :
    consolidateGo c rs = c :: rs := by
  induction rs generalizing c with
  | nil => rfl
  | cons r rs ih =>
    rw [List.chain'_cons] at h
    simp only [consolidateGo, if_neg h.1]
    rw [ih r h.2]

/-- Claim C4 — `FormattedRun::consolidate_runs` is lossless (the
concatenation of run texts is preserved), idempotent, and never leaves two
adjacent runs with equal `TextFormatting` (so runs with different formatting
are never merged). -/
theorem consolidate_runs_spec (runs : List FormattedRun) :
    textConcat (consolidate_runs runs) = textConcat runs ∧
    consolidate_runs (consolidate_runs runs) = consolidate_runs runs ∧
    List.Chain' (fun a b => a.formatting ≠ b.formatting)
      (consolidate_runs runs) := by
  match runs with
  | [] => exact ⟨rfl, rfl, List.chain'_nil⟩
  | r :: rs =>
    refine ⟨textConcat_consolidateGo rs r, ?_, consolidateGo_chain rs r⟩
    have hch := consolidateGo_chain rs r
    obtain ⟨t, tl, ht⟩ := consolidateGo_shape rs r
    calc consolidate_runs (consolidate_runs (r :: rs))
        = consolidate_runs (⟨t, r.formatting⟩ :: tl) := by
          rw [show consolidate_runs (r :: rs) = consolidateGo r rs from rfl, ht]
      _ = consolidateGo ⟨t, r.formatting⟩ tl := rfl
      _ = ⟨t, r.formatting⟩ :: tl := by
          apply consolidateGo_of_chain
          rw [← ht]; exact hch
      _ = consolidate_runs (r :: rs) := by
          rw [show consolidate_runs (r :: rs) = consolidateGo r rs from rfl, ht]

/-! ## List numbering manager -/

theorem generate_number_counters (m : DocumentNumberingManager) (id : Int)
    (lvl : Nat) (fmt : NumberingFormat) (k : Int × Nat) :
    (generate_number m id lvl fmt).2.counters k =
      if k.1 = id ∧ lvl < k.2 then none
      else if k = (id, lvl) then some ((m.counters (id, lvl)).getD 0 + 1)
      else m.counters k := rfl

/-- Claim C1 — for a fixed `(numbering_id, level)` key, a call to
`generate_number` sets the counter to its previous value plus one (so an
immediately repeated call for the same key yields the next value, and the
counters are strictly increasing); every call removes the counter of every
strictly deeper level of the same id, and leaves counters of other ids and
of shallower levels of the same id unchanged. -/
theorem generate_number_spec (m : DocumentNumberingManager) (id id2 : Int)
    (lvl l l2 lDeep : Nat) (fmt fmt2 : NumberingFormat)
    (hdeep : lvl < lDeep) (hother : id2 ≠ id) (hshallow : l < lvl) :
    (generate_number m id lvl fmt).2.counters (id, lvl)
        = some ((m.counters (id, lvl)).getD 0 + 1) ∧
    (generate_number (generate_number m id lvl fmt).2 id lvl fmt2).2.counters
        (id, lvl) = some ((m.counters (id, lvl)).getD 0 + 2) ∧
    (generate_number m id lvl fmt).2.counters (id, lDeep) = none ∧
    (generate_number m id lvl fmt).2.counters (id2, l2) = m.counters (id2, l2) ∧
    (generate_number m id lvl fmt).2.counters (id, l) = m.counters (id, l) := by
  have hself : (generate_number m id lvl fmt).2.counters (id, lvl)
      = some ((m.counters (id, lvl)).getD 0 + 1) := by
    rw [generate_number_counters]; simp
  refine ⟨hself, ?_, ?_, ?_, ?_⟩
  · rw [generate_number_counters]
    simp [hself]
  · rw [generate_number_counters]
    simp [hdeep]
  · rw [generate_number_counters]
    simp [hother]
  · have h1 : ¬ lvl < l := by omega
    have h2 : l ≠ lvl := by omega
    rw [generate_number_counters]
    simp [h1, h2]

/-- Application of C1 at a concrete state and key. -/
theorem generate_number_spec_witness :
    1 < 2 ∧ (0 : Int) ≠ 1 ∧ 0 < 1 ∧
    (generate_number ⟨fun _ => none⟩ 1 1 .Decimal).2.counters (1, 2) = none ∧
    (generate_number (generate_number ⟨fun _ => none⟩ 1 1 .Decimal).2 1 1
        .Decimal).2.counters (1, 1) = some 2 := by
  refine ⟨by decide, by decide, by decide, ?_, ?_⟩
  · exact (generate_number_spec ⟨fun _ => none⟩ 1 0 1 0 3 2 .Decimal .Decimal
      (by decide) (by decide) (by decide)).2.2.1
  · have h := (generate_number_spec ⟨fun _ => none⟩ 1 0 1 0 3 2 .Decimal
      .Decimal (by decide) (by decide) (by decide)).2.1
    simpa using h

/-! ## Heading auto-number tracker -/

theorem get_number_counters (t : HeadingNumberTracker) (level : Nat)
    (h : t.auto_numbering_enabled = true) (i : Nat) :
    (get_number t level).2.counters i =
      if i = heading_level_index level then
        t.counters (heading_level_index level) + 1
      else if heading_level_index level < i ∧ i < 6 then 0
      else t.counters i := by
  simp [get_number, h]

/-- Claim C10 — `HeadingNumberTracker::get_number` is total over the modeled
`u8` levels and clamps into the six slots: levels 0 and 1 both use the first
slot, levels 7 and above the sixth, and the clamped index is always
in-bounds; when enabled, the clamped slot is incremented, strictly deeper
slots are zeroed and shallower slots are untouched; when disabled the call
returns the empty string and leaves the tracker unchanged. -/
theorem get_number_spec (t : HeadingNumberTracker) (level : Nat) :
    heading_level_index level < 6 ∧
    heading_level_index 0 = 0 ∧ heading_level_index 1 = 0 ∧
    (7 ≤ level → heading_level_index level = 5) ∧
    (t.auto_numbering_enabled = false → get_number t level = ("", t)) ∧
    (t.auto_numbering_enabled = true →
      (get_number t level).2.counters (heading_level_index level)
          = t.counters (heading_level_index level) + 1 ∧
      (∀ i, heading_level_index level < i → i < 6 →
        (get_number t level).2.counters i = 0) ∧
      (∀ i, i < heading_level_index level →
        (get_number t level).2.counters i = t.counters i)) := by
  refine ⟨?_, rfl, rfl, ?_, ?_, ?_⟩
  · simp only [heading_level_index]; omega
  · intro h7
    simp only [heading_level_index]; omega
  · intro hoff
    simp [get_number, hoff]
  · intro hon
    refine ⟨?_, ?_, ?_⟩
    · rw [get_number_counters t level hon]; simp
    · intro i hlt h6
      rw [get_number_counters t level hon]
      have hne : i ≠ heading_level_index level := by omega
      simp [hne, hlt, h6]
    · intro i hlt
      rw [get_number_counters t level hon]
      have hne : i ≠ heading_level_index level := by omega
      have h2 : ¬ heading_level_index level < i := by omega
      simp [hne, h2]

/-- Application of C10 at a concrete tracker and level. -/
theorem get_number_spec_witness :
    7 ≤ 9 ∧ heading_level_index 9 = 5 ∧
    (get_number ⟨fun _ => 0, true⟩ 9).2.counters 5 = 1 ∧
    get_number ⟨fun _ => 0, false⟩ 9 = ("", ⟨fun _ => 0, false⟩) := by
  refine ⟨by decide, (get_number_spec ⟨fun _ => 0, true⟩ 9).2.2.2.1 (by decide),
    ?_, (get_number_spec ⟨fun _ => 0, false⟩ 9).2.2.2.2.1 rfl⟩
  have h := ((get_number_spec ⟨fun _ => 0, true⟩ 9).2.2.2.2.2 rfl).1
  simpa [heading_level_index] using h

/-! ## Literal heading-number extraction -/

/-- Claim C3 — the exact input/output table of
`extract_heading_number_from_text`: the three decimal/letter/roman forms and
the Section form extract as stated, and "Introduction", "Heading 1" and
"Version 2" extract nothing. -/
theorem extract_heading_number_table :
    extract_heading_number_from_text ("1. Introduction".toList)
        = some ("1".toList, "Introduction".toList) ∧
    extract_heading_number_from_text ("1.1 Project Overview".toList)
        = some ("1.1".toList, "Project Overview".toList) ∧
    extract_heading_number_from_text ("A. First Section".toList)
        = some ("A".toList, "First Section".toList) ∧
    extract_heading_number_from_text ("I. Roman Numeral".toList)
        = some ("I".toList, "Roman Numeral".toList) ∧
    extract_heading_number_from_text ("Section 1.2 Overview".toList)
        = some ("Section 1.2".toList, "Overview".toList) ∧
    extract_heading_number_from_text ("Introduction".toList) = none ∧
    extract_heading_number_from_text ("Heading 1".toList) = none ∧
    extract_heading_number_from_text ("Version 2".toList) = none := by
  decide

/-! ## Document-wide auto-numbering pre-pass -/

theorem styled_headings_cons_none (p : DocxParagraph) (ps : List DocxParagraph)
    (hd : detect_heading_from_paragraph_style p.style = none) :
    styled_headings (p :: ps) = styled_headings ps := by
  simp [styled_headings, hd]

theorem styled_headings_cons_some (p : DocxParagraph) (ps : List DocxParagraph)
    (l : Nat) (hd : detect_heading_from_paragraph_style p.style = some l) :
    styled_headings (p :: ps) = (l, p.text) :: styled_headings ps := by
  simp [styled_headings, hd]

theorem analyze_foldl (ps : List DocxParagraph) (s0 : AnalyzeState) :
    (ps.foldl analyzeStep s0).heading_count
        = s0.heading_count + headingCountOf ps ∧
    (ps.foldl analyzeStep s0).has_explicit_numbering
        = (s0.has_explicit_numbering || hasExplicitOf ps) ∧
    ∀ i, (ps.foldl analyzeStep s0).level_counts i
        = s0.level_counts i + levelCountOf ps i := by
  induction ps generalizing s0 with
  | nil =>
    simp [headingCountOf, hasExplicitOf, levelCountOf, styled_headings]
  | cons p ps ih =>
    simp only [List.foldl_cons]
    cases hd : detect_heading_from_paragraph_style p.style with
    | none =>
      have hstep : analyzeStep s0 p = s0 := by simp [analyzeStep, hd]
      rw [hstep]
      obtain ⟨ih1, ih2, ih3⟩ := ih s0
      refine ⟨?_, ?_, ?_⟩
      · rw [ih1, headingCountOf, headingCountOf, styled_headings_cons_none p ps hd]
      · rw [ih2, hasExplicitOf, hasExplicitOf, styled_headings_cons_none p ps hd]
      · intro i
        rw [ih3 i, levelCountOf, levelCountOf, styled_headings_cons_none p ps hd]
    | some l =>
      obtain ⟨ih1, ih2, ih3⟩ := ih (analyzeStep s0 p)
      have hc : (analyzeStep s0 p).heading_count = s0.heading_count + 1 := by
        simp [analyzeStep, hd]
      have he : (analyzeStep s0 p).has_explicit_numbering
          = (s0.has_explicit_numbering ||
             (extract_heading_number_from_text p.text).isSome) := by
        simp [analyzeStep, hd]
      have hl : ∀ i, (analyzeStep s0 p).level_counts i
          = if i = heading_level_index l then s0.level_counts i + 1
            else s0.level_counts i := by
        intro i; simp [analyzeStep, hd]
      refine ⟨?_, ?_, ?_⟩
      · rw [ih1, hc, headingCountOf, headingCountOf,
          styled_headings_cons_some p ps l hd, List.length_cons]
        omega
      · rw [ih2, he, hasExplicitOf, hasExplicitOf,
          styled_headings_cons_some p ps l hd, List.any_cons, Bool.or_assoc]
      · intro i
        rw [ih3 i, hl i, levelCountOf, levelCountOf,
          styled_headings_cons_some p ps l hd, List.countP_cons]
        by_cases hi : i = heading_level_index l
        · simp [hi]; omega
        · have : ¬ heading_level_index l = i := fun h => hi h.symm
          simp [hi, this]

/-- Claim C2 (amended) — the auto-numbering pre-pass returns `true` exactly
when no styled heading carries literal numbering, at least 3 styled headings
exist, and either more than one of the six level slots is used or the first
level slot holds more than one heading.  (In particular a document whose
styled headings all share level 1 gets auto-numbering enabled, not
disabled.) -/
theorem analyze_heading_structure_spec (paras : List DocxParagraph) :
    analyze_heading_structure paras = true ↔
      hasExplicitOf paras = false ∧ 3 ≤ headingCountOf paras ∧
        (1 < levelsUsedOf paras ∨ 1 < levelCountOf paras 0) := by
  obtain ⟨h1, h2, h3⟩ := analyze_foldl paras ⟨0, false, fun _ => 0⟩
  have h1' : (paras.foldl analyzeStep ⟨0, false, fun _ => 0⟩).heading_count
      = headingCountOf paras := by rw [h1]; simp
  have h2' : (paras.foldl analyzeStep ⟨0, false, fun _ => 0⟩).has_explicit_numbering
      = hasExplicitOf paras := by rw [h2]; simp
  have h30 : (paras.foldl analyzeStep ⟨0, false, fun _ => 0⟩).level_counts 0
      = levelCountOf paras 0 := by rw [h3 0]; simp
  have hfil : ((List.range 6).filter fun i =>
        decide (0 < (paras.foldl analyzeStep ⟨0, false, fun _ => 0⟩).level_counts i))
      = ((List.range 6).filter fun i => decide (0 < levelCountOf paras i)) := by
    apply List.filter_congr
    intro i _
    rw [h3 i]
    simp
  simp only [analyze_heading_structure]
  rw [h1', h2', hfil, h30]
  cases hE : hasExplicitOf paras with
  | true => simp [hE]
  | false =>
    by_cases hC : headingCountOf paras < 3
    · have hlt : ¬ 3 ≤ headingCountOf paras := by omega
      simp [hC, hlt]
    · have hge : 3 ≤ headingCountOf paras := by omega
      simp [hC, hge, levelsUsedOf]

/-- Counterexample to claim C2 as stated: three styled headings that all
share one level (all in the first level slot), none literally numbered —
the pre-pass returns `true`, not `false`. -/
theorem analyze_heading_structure_counterexample :
    headingCountOf paras3 = 3 ∧ hasExplicitOf paras3 = false ∧
    levelsUsedOf paras3 = 1 ∧ analyze_heading_structure paras3 = true := by
  decide

/-! ## Search -/

theorem searchHit_pos (i : Nat) (t qL : Str) (qn : Nat) (r : SearchResult)
    (h : r ∈ searchHit i t qL qn) : r.end_pos = r.start_pos + qn := by
  unfold searchHit at h
  cases hf : findSub (toLowerStr t) qL with
  | none => rw [hf] at h; cases h
  | some s =>
    rw [hf] at h
    rw [List.mem_singleton.mp h]

theorem elementHits_pos (qL : Str) (qn i : Nat) (e : DocumentElement)
    (r : SearchResult) (h : r ∈ elementHits qL qn i e) :
    r.end_pos = r.start_pos + qn := by
  cases e with
  | Heading level text number => exact searchHit_pos _ _ _ _ _ h
  | Paragraph runs => exact searchHit_pos _ _ _ _ _ h
  | ListElem items ordered =>
    simp only [elementHits] at h
    obtain ⟨item, -, hmem⟩ := List.mem_flatMap.mp h
    exact searchHit_pos _ _ _ _ _ hmem
  | Table table =>
    simp only [elementHits] at h
    rcases List.mem_append.mp h with h' | h'
    · obtain ⟨header, -, hmem⟩ := List.mem_flatMap.mp h'
      exact searchHit_pos _ _ _ _ _ hmem
    · obtain ⟨row, -, hrow⟩ := List.mem_flatMap.mp h'
      obtain ⟨cell, -, hmem⟩ := List.mem_flatMap.mp hrow
      exact searchHit_pos _ _ _ _ _ hmem
  | Image description width height => exact searchHit_pos _ _ _ _ _ h
  | Equation latex fallback => exact searchHit_pos _ _ _ _ _ h
  | PageBreak => cases h

/-- Claim C5 (amended) — `search_document` is case-insensitive (searching
"Revenue" and "revenue" returns identical, hence equal-length, result sets)
and position-accurate (`end_pos - start_pos` equals the query length for
every result of every query); the empty query returns no results.  (A
whitespace-only nonempty query is NOT rejected — see the counterexample.) -/
theorem search_document_spec (d : Document) :
    search_document d ("Revenue".toList) = search_document d ("revenue".toList) ∧
    (∀ q r, r ∈ search_document d q → r.end_pos - r.start_pos = q.length) ∧
    search_document d [] = [] := by
  refine ⟨?_, ?_, rfl⟩
  · have hL : toLowerStr ("Revenue".toList) = toLowerStr ("revenue".toList) := by
      decide
    have hlen : ("Revenue".toList).length = ("revenue".toList).length := by decide
    simp only [search_document]
    rw [if_neg (by decide), if_neg (by decide), hL, hlen]
  · intro q r hr
    by_cases hq : q = []
    · subst hq
      simp [search_document] at hr
    · simp only [search_document, if_neg hq] at hr
      obtain ⟨p, -, hmem⟩ := List.mem_flatMap.mp hr
      have := elementHits_pos _ _ _ _ _ hmem
      omega

/-- Counterexample to claim C5 as stated: the single-space query is
whitespace-only yet returns a result on a document whose paragraph contains
a space. -/
theorem search_document_counterexample :
    ([' '] : Str).all wsChar = true ∧
    search_document docWs [' '] = [⟨0, "a b".toList, 1, 2⟩] := by
  decide

/-- Application of C5 (amended) at a concrete document and query. -/
theorem search_document_spec_witness :
    (⟨0, "Revenue up".toList, 0, 7⟩ : SearchResult) ∈
        search_document docRevenue ("Revenue".toList) ∧
    (7 : Nat) - 0 = ("Revenue".toList).length := by
  refine ⟨by decide, ?_⟩
  exact (search_document_spec docRevenue).2.1 ("Revenue".toList)
    ⟨0, "Revenue up".toList, 0, 7⟩ (by decide)

/-! ## Table column alignment -/

theorem columnCounts_foldl (rows : List (List TableCell)) (col : Nat)
    (acc : Nat × Nat) :
    rows.foldl (columnCountsStep col) acc
      = (acc.1 + colNumeric rows col, acc.2 + colTotal rows col) := by
  induction rows generalizing acc with
  | nil => simp [colNumeric, colTotal]
  | cons row rows ih =>
    simp only [List.foldl_cons]
    rw [ih]
    simp only [colNumeric, colTotal, List.countP_cons]
    cases h : row[col]? with
    | none =>
      simp [columnCountsStep, h, Prod.mk.injEq]
    | some cell =>
      cases hn : isNumericCellType cell.data_type with
      | true =>
        simp [columnCountsStep, h, hn, Prod.mk.injEq]
        omega
      | false =>
        simp [columnCountsStep, h, hn, Prod.mk.injEq]
        omega

theorem countP_replicate {α : Type} (p : α → Bool) (a : α) (n : Nat) :
    (List.replicate n a).countP p = if p a then n else 0 := by
  induction n with
  | zero => simp
  | succ n ih =>
    rw [List.replicate_succ, List.countP_cons, ih]
    by_cases h : p a <;> simp [h]

theorem colNumeric_sample (n m : Nat) :
    colNumeric (List.replicate n [numCell] ++ List.replicate m [txtCell]) 0 = n := by
  rw [colNumeric, List.countP_append, countP_replicate, countP_replicate]
  norm_num [numCell, txtCell, isNumericCellType]

theorem colTotal_sample (n m : Nat) :
    colTotal (List.replicate n [numCell] ++ List.replicate m [txtCell]) 0
      = n + m := by
  rw [colTotal, List.countP_append, countP_replicate, countP_replicate]
  norm_num

theorem determine_column_alignments_get (headers : List TableCell)
    (rows : List (List TableCell)) (col : Nat) (h : col < headers.length) :
    (determine_column_alignments headers rows)[col]?
      = some (if 0 < colTotal rows col ∧
            prLt f32lit0_7 (f32div (f32ofNat (colNumeric rows col))
              (f32ofNat (colTotal rows col))) = true
          then TextAlignment.Right else TextAlignment.Left) := by
  unfold determine_column_alignments
  rw [List.getElem?_map, List.getElem?_range h]
  simp only [Option.map_some']
  simp only [columnCounts_foldl, Nat.zero_add]

/-- Claim C6 (amended) — every constructed `TableData` right-aligns a column
exactly when the column has cells and the `f32` division of its numeric
count by its total count strictly exceeds the `f32` literal `0.7`; in
particular 71 numeric cells out of 100 give Right and 70 or 69 out of 100
give Left.  (The f32 comparison does not coincide with the exact ">70%" rule
on all inputs — see the counterexample.) -/
theorem table_alignment_spec (headers : List TableCell)
    (rows : List (List TableCell)) (col : Nat) (h : col < headers.length) :
    ((TableData.new headers rows).metadata.column_alignments)[col]?
      = some (if 0 < colTotal rows col ∧
            prLt f32lit0_7 (f32div (f32ofNat (colNumeric rows col))
              (f32ofNat (colTotal rows col))) = true
          then TextAlignment.Right else TextAlignment.Left) ∧
    determine_column_alignments [txtCell] (sampleRows 71 100)
      = [TextAlignment.Right] ∧
    determine_column_alignments [txtCell] (sampleRows 70 100)
      = [TextAlignment.Left] ∧
    determine_column_alignments [txtCell] (sampleRows 69 100)
      = [TextAlignment.Left] :=
  ⟨determine_column_alignments_get headers rows col h,
   by decide, by decide, by decide⟩

/-- Counterexample to claim C6 as stated: a single-column table with 6999998
numeric cells out of 9999997 rows — strictly more than 70 percent — that the
code left-aligns, because the `f32` quotient rounds to exactly `0.7f32`. -/
theorem table_alignment_counterexample :
    70 * colTotal bigRows 0 < 100 * colNumeric bigRows 0 ∧
    determine_column_alignments [txtCell] bigRows = [TextAlignment.Left] := by
  have hsplit : bigRows
      = List.replicate 6999998 [numCell] ++ List.replicate 2999999 [txtCell] := by
    rw [bigRows, sampleRows]
  have hN : colNumeric bigRows 0 = 6999998 := by
    rw [hsplit, colNumeric_sample]
  have hT : colTotal bigRows 0 = 9999997 := by
    rw [hsplit, colTotal_sample]
  constructor
  · rw [hN, hT]
    norm_num
  · have hget := determine_column_alignments_get [txtCell] bigRows 0 (by decide)
    rw [hN, hT] at hget
    have hcmp : prLt f32lit0_7 (f32div (f32ofNat 6999998) (f32ofNat 9999997))
        = false := by decide
    rw [hcmp] at hget
    have hif : (if 0 < 9999997 ∧ false = true then TextAlignment.Right
        else TextAlignment.Left) = TextAlignment.Left := by norm_num
    rw [hif] at hget
    have hlen : (determine_column_alignments [txtCell] bigRows).length = 1 := by
      unfold determine_column_alignments
      simp
    cases hl : determine_column_alignments [txtCell] bigRows with
    | nil => rw [hl] at hlen; simp at hlen
    | cons a t =>
      rw [hl] at hlen hget
      simp only [List.length_cons, List.getElem?_cons_zero, Option.some.injEq]
        at hlen hget
      have ht : t = [] := List.eq_nil_of_length_eq_zero (by omega)
      rw [hget, ht]

/-- Application of C6 (amended) at a concrete table. -/
theorem table_alignment_spec_witness :
    0 < 1 ∧
    ((TableData.new [txtCell] []).metadata.column_alignments)[0]?
      = some (if 0 < colTotal [] 0 ∧
            prLt f32lit0_7 (f32div (f32ofNat (colNumeric [] 0))
              (f32ofNat (colTotal [] 0))) = true
          then TextAlignment.Right else TextAlignment.Left) :=
  ⟨by decide, (table_alignment_spec [txtCell] [] 0 (by decide)).1⟩

/-! ## Document order: equation merge and list grouping -/

theorem consumeEqs_concat (m : Nat → List DocumentElement) (ks : List Nat)
    (bound : Nat) :
    (consumeEqs m ks bound).1 ++ ((consumeEqs m ks bound).2).flatMap m
      = ks.flatMap m := by
  induction ks with
  | nil => simp [consumeEqs]
  | cons k ks ih =>
    simp only [consumeEqs]
    split
    · simp only [List.flatMap_cons, List.append_assoc]
      rw [ih]
    · simp

theorem mergeGo_sublist (m : Nat → List DocumentElement)
    (es : List DocumentElement) (ks : List Nat) (idx : Nat) :
    es.Sublist (mergeGo m es ks idx) := by
  induction es generalizing ks idx with
  | nil => exact List.nil_sublist _
  | cons e es ih =>
    simp only [mergeGo]
    split
    · exact ((ih _ _).cons₂ e).trans (List.sublist_append_right _ _)
    · exact (ih _ _).cons₂ e

theorem perm_append_swap {α : Type} (a b c : List α) :
    (a ++ (b ++ c)).Perm (b ++ (a ++ c)) := by
  rw [← List.append_assoc, ← List.append_assoc]
  exact List.Perm.append_right c List.perm_append_comm

theorem mergeGo_perm (m : Nat → List DocumentElement)
    (es : List DocumentElement) (ks : List Nat) (idx : Nat) :
    (mergeGo m es ks idx).Perm (es ++ ks.flatMap m) := by
  induction es generalizing ks idx with
  | nil => simp [mergeGo]
  | cons e es ih =>
    simp only [mergeGo]
    split
    · have key := consumeEqs_concat m ks (idx + 1)
      refine List.Perm.trans List.perm_middle ?_
      refine List.Perm.cons e ?_
      refine List.Perm.trans (List.Perm.append_left _ (ih _ _)) ?_
      rw [← key]
      exact perm_append_swap _ _ _
    · exact (ih ks idx).cons e

theorem groupGo_filter (es : List DocumentElement) (cur : List ListItem)
    (ord : Bool) :
    (groupGo es cur ord).filter survivesGrouping
      = es.filter survivesGrouping := by
  induction es generalizing cur ord with
  | nil =>
    simp only [groupGo]
    split
    · rfl
    · simp [survivesGrouping]
  | cons e es ih =>
    cases e with
    | Paragraph runs =>
      simp only [groupGo]
      split
      · split
        · simp [List.filter_cons, survivesGrouping, ih]
        · simp [List.filter_cons, survivesGrouping, ih]
      · split
        · simp [List.filter_cons, survivesGrouping, ih]
        · simp [List.filter_cons, survivesGrouping, ih]
    | Heading level text number =>
      simp only [groupGo]
      split <;> simp [List.filter_cons, survivesGrouping, ih]
    | ListElem items ordered =>
      simp only [groupGo]
      split <;> simp [List.filter_cons, survivesGrouping, ih]
    | Table table =>
      simp only [groupGo]
      split <;> simp [List.filter_cons, survivesGrouping, ih]
    | Image description width height =>
      simp only [groupGo]
      split <;> simp [List.filter_cons, survivesGrouping, ih]
    | Equation latex fallback =>
      simp only [groupGo]
      split <;> simp [List.filter_cons, survivesGrouping, ih]
    | PageBreak =>
      simp only [groupGo]
      split <;> simp [List.filter_cons, survivesGrouping, ih]

theorem consumeEqs_sorted (m : Nat → List DocumentElement) (ks : List Nat)
    (bound : Nat) (hs : List.Sorted (· ≤ ·) ks) :
    consumeEqs m ks bound
      = ((ks.filter fun k => decide (k < bound)).flatMap m,
         ks.filter fun k => decide (bound ≤ k)) := by
  induction ks with
  | nil => simp [consumeEqs]
  | cons k ks ih =>
    rw [List.sorted_cons] at hs
    obtain ⟨hall, hs'⟩ := hs
    simp only [consumeEqs]
    split
    · next h =>
      rw [ih hs']
      have h1 : ¬ bound ≤ k := by omega
      simp [List.filter_cons, h, h1]
    · next h =>
      have h2 : bound ≤ k := by omega
      have hnil : (ks.filter fun x => decide (x < bound)) = [] := by
        rw [List.filter_eq_nil_iff]
        intro x hx
        have := hall x hx
        simp only [decide_eq_true_eq]
        omega
      have hself : (ks.filter fun x => decide (bound ≤ x)) = ks := by
        rw [List.filter_eq_self]
        intro x hx
        have := hall x hx
        simp only [decide_eq_true_eq]
        omega
      simp [List.filter_cons, h, h2, hnil, hself]

theorem specMergeGo_filter (m : Nat → List DocumentElement) (ks : List Nat)
    (bound : Nat) (es : List DocumentElement) (p : Nat) (hp : bound ≤ p) :
    specMergeGo m (ks.filter fun k => decide (bound ≤ k)) es p
      = specMergeGo m ks es p := by
  induction es generalizing p with
  | nil =>
    simp only [specMergeGo]
    rw [List.filter_filter]
    congr 1
    apply List.filter_congr
    intro k _
    by_cases h : p ≤ k
    · simp [h, show bound ≤ k by omega]
    · simp [h]
  | cons e es ih =>
    simp only [specMergeGo]
    split
    · have hfe : (ks.filter fun k => decide (bound ≤ k)).filter
            (fun k => decide (k = p))
          = ks.filter fun k => decide (k = p) := by
        rw [List.filter_filter]
        apply List.filter_congr
        intro k _
        by_cases h : k = p
        · subst h
          simp [show bound ≤ k by omega]
        · simp [h]
      rw [hfe, ih (p + 1) (by omega)]
    · rw [ih p hp]

theorem mergeGo_eq_spec (m : Nat → List DocumentElement)
    (es : List DocumentElement) (ks : List Nat) (idx : Nat)
    (hs : List.Sorted (· ≤ ·) ks) (hlb : ∀ k ∈ ks, idx ≤ k) :
    mergeGo m es ks idx = specMergeGo m ks es idx := by
  induction es generalizing ks idx with
  | nil =>
    simp only [mergeGo, specMergeGo]
    congr 1
    symm
    rw [List.filter_eq_self]
    intro k hk
    simpa using hlb k hk
  | cons e es ih =>
    simp only [mergeGo, specMergeGo]
    split
    · rw [consumeEqs_sorted m ks (idx + 1) hs]
      have hfe : (ks.filter fun k => decide (k < idx + 1))
          = ks.filter fun k => decide (k = idx) := by
        apply List.filter_congr
        intro k hk
        have := hlb k hk
        exact decide_eq_decide.mpr (by omega)
      have hrec := ih (ks.filter fun k => decide (idx + 1 ≤ k)) (idx + 1)
        (List.Pairwise.filter _ hs)
        (fun k hk => by
          rw [List.mem_filter] at hk
          simpa using hk.2)
      rw [hfe, hrec, specMergeGo_filter m ks (idx + 1) es (idx + 1) (le_refl _)]
    · rw [ih ks idx hs hlb]

theorem expandLists_cons (e : DocumentElement) (es : List DocumentElement) :
    expandLists (e :: es) = expandElem e ++ expandLists es := by
  simp [expandLists]

theorem expandLists_groupGo (es : List DocumentElement) (cur : List ListItem)
    (ord : Bool) :
    expandLists (groupGo es cur ord)
      = cur.map Sum.inl ++ es.flatMap groupImage := by
  induction es generalizing cur ord with
  | nil =>
    simp only [groupGo]
    split
    · next h => simp [expandLists, h]
    · simp [expandLists, expandElem]
  | cons e es ih =>
    cases e with
    | Paragraph runs =>
      simp only [groupGo]
      split
      · next hitem =>
        split
        · rw [expandLists_cons, ih]
          simp [expandElem, List.flatMap_cons, groupImage, hitem]
        · rw [ih]
          simp [List.flatMap_cons, groupImage, hitem]
      · next hitem =>
        split
        · next hflush =>
          rw [expandLists_cons, expandLists_cons, ih]
          simp [expandElem, List.flatMap_cons, groupImage, hitem]
        · next hflush =>
          have hc : cur = [] := not_not.mp hflush
          rw [expandLists_cons, ih]
          simp [hc, expandElem, List.flatMap_cons, groupImage, hitem]
    | Heading level text number =>
      simp only [groupGo]
      split
      · rw [expandLists_cons, expandLists_cons, ih]
        simp [expandElem, List.flatMap_cons, groupImage]
      · next hflush =>
        have hc : cur = [] := not_not.mp hflush
        rw [expandLists_cons, ih]
        simp [hc, expandElem, List.flatMap_cons, groupImage]
    | ListElem items ordered =>
      simp only [groupGo]
      split
      · rw [expandLists_cons, expandLists_cons, ih]
        simp [expandElem, List.flatMap_cons, groupImage]
      · next hflush =>
        have hc : cur = [] := not_not.mp hflush
        rw [expandLists_cons, ih]
        simp [hc, expandElem, List.flatMap_cons, groupImage]
    | Table table =>
      simp only [groupGo]
      split
      · rw [expandLists_cons, expandLists_cons, ih]
        simp [expandElem, List.flatMap_cons, groupImage]
      · next hflush =>
        have hc : cur = [] := not_not.mp hflush
        rw [expandLists_cons, ih]
        simp [hc, expandElem, List.flatMap_cons, groupImage]
    | Image description width height =>
      simp only [groupGo]
      split
      · rw [expandLists_cons, expandLists_cons, ih]
        simp [expandElem, List.flatMap_cons, groupImage]
      · next hflush =>
        have hc : cur = [] := not_not.mp hflush
        rw [expandLists_cons, ih]
        simp [hc, expandElem, List.flatMap_cons, groupImage]
    | Equation latex fallback =>
      simp only [groupGo]
      split
      · rw [expandLists_cons, expandLists_cons, ih]
        simp [expandElem, List.flatMap_cons, groupImage]
      · next hflush =>
        have hc : cur = [] := not_not.mp hflush
        rw [expandLists_cons, ih]
        simp [hc, expandElem, List.flatMap_cons, groupImage]
    | PageBreak =>
      simp only [groupGo]
      split
      · rw [expandLists_cons, expandLists_cons, ih]
        simp [expandElem, List.flatMap_cons, groupImage]
      · next hflush =>
        have hc : cur = [] := not_not.mp hflush
        rw [expandLists_cons, ih]
        simp [hc, expandElem, List.flatMap_cons, groupImage]

/-- Claim C7 — order of the two post-passes.  `merge_display_equations`
equals the positional specification model: every equation block is inserted
at the boundary immediately before the paragraph-like element following its
paragraph index, blocks occur in ascending index order, trailing equations
end the list; consequently the pre-existing elements reappear in their
original relative order (a sublist) and the output is exactly those elements
plus every equation of the sorted index map.  `group_list_items` flattens to
the in-place image of its input — every input element is transformed in
place without reordering (list-item paragraphs become their cleaned items,
everything else stays itself) — and in particular the sequence of
non-paragraph, non-list elements is preserved verbatim. -/
theorem document_order_spec (es fs : List DocumentElement) (keys : List Nat)
    (m : Nat → List DocumentElement) :
    merge_display_equations es keys m = merge_display_equations_model es keys m ∧
    es.Sublist (merge_display_equations es keys m) ∧
    (merge_display_equations es keys m).Perm (es ++ (sortNat keys).flatMap m) ∧
    List.Sorted (· ≤ ·) (sortNat keys) ∧
    expandLists (group_list_items fs) = fs.flatMap groupImage ∧
    (group_list_items fs).filter survivesGrouping
      = fs.filter survivesGrouping := by
  refine ⟨?_, ?_, ?_, ?_, ?_, groupGo_filter fs [] false⟩
  · unfold merge_display_equations merge_display_equations_model
    split
    · rfl
    · exact mergeGo_eq_spec m es (sortNat keys) 0
        (List.sorted_insertionSort _ keys) (fun k _ => Nat.zero_le k)
  · unfold merge_display_equations
    split
    · exact List.Sublist.refl es
    · exact mergeGo_sublist m es (sortNat keys) 0
  · unfold merge_display_equations
    split
    · next h => subst h; simp [sortNat]
    · exact mergeGo_perm m es (sortNat keys) 0
  · exact List.sorted_insertionSort _ keys
  · simpa using expandLists_groupGo fs [] false

/-! ## Load error semantics -/

/-- Claim C8 (amended) — `load_document` succeeds exactly when validation,
metadata read, file read and docx parse succeed and, if image extraction is
enabled, it succeeds too; a failing equation pass never aborts the load and
degrades to an empty display-equation set; and a validated package lacking
`word/document.xml` is distinguished as an Excel file when it holds
`xl/workbook.xml`.  (Image-extraction and docx-parse failures are additional
fatal exits beyond the three package-level causes the claim lists — see the
counterexample.) -/
theorem load_document_spec (env : LoadEnv) (en : Bool) :
    (exceptOk (load_document env en) = true ↔
      exceptOk (validate_docx_file env.pkg) = true ∧ env.metadataOk = true ∧
        env.readOk = true ∧ env.docxParses = true ∧
        (en = true → env.imageExtractionOk = true)) ∧
    (∀ r, load_document env en = .ok r →
      env.equationInfosResult = .error () → r.displayEquations = []) ∧
    (env.pkg.extensionIsDocx = true → env.pkg.openable = true →
      env.pkg.hasDocumentXml = false →
      validate_docx_file env.pkg
        = (if env.pkg.hasXlWorkbook then Except.error LoadError.excelFile
           else Except.error LoadError.invalidDocx)) := by
  refine ⟨?_, ?_, ?_⟩
  · cases hv : validate_docx_file env.pkg with
    | error e => simp [load_document, hv, exceptOk]
    | ok u =>
      simp only [load_document, hv]
      cases hm : env.metadataOk with
      | false => simp [exceptOk, hm, hv]
      | true =>
        cases hr : env.readOk with
        | false => simp [exceptOk, hm, hr, hv]
        | true =>
          cases hd : env.docxParses with
          | false => simp [exceptOk, hm, hr, hd, hv]
          | true =>
            cases en with
            | false => simp [exceptOk, hm, hr, hd, hv]
            | true =>
              cases hi : env.imageExtractionOk with
              | false => simp [exceptOk, hm, hr, hd, hi, hv]
              | true => simp [exceptOk, hm, hr, hd, hi, hv]
  · intro r hok heq
    cases hv : validate_docx_file env.pkg with
    | error e => simp [load_document, hv] at hok
    | ok u =>
      simp only [load_document, hv] at hok
      split_ifs at hok
      any_goals simp at hok
      rw [heq] at hok
      rw [← hok]
      rfl
  · intro h1 h2 h3
    simp [validate_docx_file, h1, h2, h3]

/-- Counterexample to claim C8 as stated: a package with the right
extension, readable and holding `word/document.xml`, on which
`load_document` still fails — because image extraction is enabled and
fails.  The error is not one of the three package-level causes the claim
allows. -/
theorem load_document_counterexample :
    exceptOk (validate_docx_file goodPkg) = true ∧
    envImgFail.metadataOk = true ∧ envImgFail.readOk = true ∧
    envImgFail.docxParses = true ∧
    load_document envImgFail true = .error .imageExtractionFailure := by
  refine ⟨rfl, rfl, rfl, rfl, rfl⟩

/-- Application of C8 (amended) at a concrete environment whose equation
passes fail. -/
theorem load_document_spec_witness :
    exceptOk (load_document envEqFail true) = true ∧
    (LoadResult.mk []).displayEquations = [] := by
  refine ⟨?_, ?_⟩
  · exact (load_document_spec envEqFail true).1.mpr
      ⟨rfl, rfl, rfl, rfl, fun _ => rfl⟩
  · exact (load_document_spec envEqFail true).2.1 ⟨[]⟩ rfl rfl

/-! ## Heading level bounds -/

theorem determine_heading_level_bounds (t : Str) :
    1 ≤ determine_heading_level_from_text t ∧
    determine_heading_level_from_text t ≤ 3 := by
  unfold determine_heading_level_from_text
  split
  · omega
  · split <;> omega

theorem detect_heading_from_text_range (text : Str) (fm : TextFormatting)
    (l : Nat) (h : detect_heading_from_text text fm = some l) :
    1 ≤ l ∧ l ≤ 3 := by
  simp only [detect_heading_from_text] at h
  repeat' split at h
  any_goals simp at h
  all_goals try subst h
  any_goals exact determine_heading_level_bounds _
  all_goals omega

theorem detect_style_bounds (sv : Option Str) (l : Nat)
    (h : detect_heading_from_paragraph_style sv = some l) :
    l ≤ 6 ∧
    (l = 0 → ∃ s c, sv = some s ∧ s.getLast? = some c ∧ digitVal c = some 0) := by
  cases sv with
  | none => exact Option.noConfusion h
  | some s =>
    simp only [detect_heading_from_paragraph_style] at h
    split at h
    · cases hlast : s.getLast? with
      | none =>
        simp only [hlast] at h
        injection h with h'
        subst h'
        exact ⟨by omega, by omega⟩
      | some c =>
        simp only [hlast] at h
        cases hd : digitVal c with
        | none =>
          simp only [hd] at h
          injection h with h'
          subst h'
          exact ⟨by omega, by omega⟩
        | some level =>
          simp only [hd] at h
          injection h with h'
          subst h'
          refine ⟨by omega, fun h0 => ⟨s, c, rfl, hlast, ?_⟩⟩
          have hz : level = 0 := by omega
          rw [hd, hz]
    · exact Option.noConfusion h

/-- Claim C9 (amended) — every style-detected heading level is at most 6,
and level 0 occurs exactly when the style name's trailing character reads as
the digit 0 (e.g. style "Heading10"); the text-shape fallback only ever
assigns levels 1 to 3.  The 1..6 lower bound of the claim fails on such
styles — see the counterexample. -/
theorem heading_level_bounds (sv : Option Str) (text : Str)
    (fm : TextFormatting) (l l2 : Nat)
    (h1 : detect_heading_from_paragraph_style sv = some l)
    (h2 : detect_heading_from_text text fm = some l2) :
    l ≤ 6 ∧
    (l = 0 → ∃ s c, sv = some s ∧ s.getLast? = some c ∧ digitVal c = some 0) ∧
    1 ≤ l2 ∧ l2 ≤ 3 :=
  ⟨(detect_style_bounds sv l h1).1, (detect_style_bounds sv l h1).2,
   (detect_heading_from_text_range text fm l2 h2).1,
   (detect_heading_from_text_range text fm l2 h2).2⟩

/-- Counterexample to claim C9 as stated: the heading style named
"Heading10" is detected as a heading of level 0 (its trailing digit is 0),
so a load of a document using that style produces a `Heading` element with
level 0, outside 1..6. -/
theorem heading_level_counterexample :
    detect_heading_from_paragraph_style (some ("Heading10".toList)) = some 0 := by
  decide

/-- Application of C9 (amended) at a concrete style and paragraph text. -/
theorem heading_level_bounds_witness :
    detect_heading_from_paragraph_style (some ("Heading2".toList)) = some 2 ∧
    detect_heading_from_text ("Project Overview Plan".toList) boldFmt
      = some 2 ∧ 2 ≤ 6 ∧ 1 ≤ 2 ∧ 2 ≤ 3 := by
  refine ⟨by decide, by decide, ?_, ?_, ?_⟩
  · exact (heading_level_bounds (some ("Heading2".toList))
      ("Project Overview Plan".toList) boldFmt 2 2 (by decide) (by decide)).1
  · exact (heading_level_bounds (some ("Heading2".toList))
      ("Project Overview Plan".toList) boldFmt 2 2 (by decide) (by decide)).2.2.1
  · exact (heading_level_bounds (some ("Heading2".toList))
      ("Project Overview Plan".toList) boldFmt 2 2 (by decide) (by decide)).2.2.2

end Doxx
